import Mathlib

/-!
Shallow embedding of the chess rules engine of this repository
(`src/client/engine/ChessEngine.ts` together with `src/shared/utils.ts`).

JavaScript strings are modelled as `List Char` (`Str`).  The engine's
string-literal union types (`'white' | 'black'`, squares such as `"e4"`,
FEN text) therefore stay strings in the model, exactly as in the source;
the closed union `PieceType` is modelled as an inductive type.  Machine
numbers that the source only ever uses as integers are modelled as
`Int`/`Nat`; a `number` field that can become `NaN` (the two FEN clock
fields, via `parseInt` on non-numeric text) is modelled as `Option Nat`
with `none` playing the role of `NaN`.  Mutation of the single
`gameState` field is modelled by explicit state passing: every method
that mutates `this.gameState` becomes a function `GameState → ... →
GameState`.  A JavaScript code path that throws (construction from a FEN
whose placement has fewer than 8 ranks, `undoMove` on an unparseable
stored FEN) is modelled with `Option`, `none` standing for the thrown
exception.
-/

namespace Chess

/-- JavaScript strings are sequences of characters. -/
abbrev Str := List Char

/-- The string literal `'white'`. -/
def strWhite : Str := "white".toList

/-- The string literal `'black'`. -/
def strBlack : Str := "black".toList

/-- `PieceType` from `shared/types.ts`:
`'king' | 'queen' | 'rook' | 'bishop' | 'knight' | 'pawn'`. -/
inductive PieceType where
  | king | queen | rook | bishop | knight | pawn
deriving DecidableEq, Repr

/-- `Piece` from `shared/types.ts`.  The source types `color` as the
string union `'white' | 'black'`; we keep it a string. -/
structure Piece where
  type : PieceType
  color : Str
deriving DecidableEq, Repr

/-- `CastlingRights` record of `GameState` (`shared/types.ts`). -/
structure CastlingRights where
  whiteKingside : Bool
  whiteQueenside : Bool
  blackKingside : Bool
  blackQueenside : Bool
deriving DecidableEq, Repr

/-- The `'kingside' | 'queenside'` union used by `Move.castling`. -/
inductive CastleSide where
  | kingside | queenside
deriving DecidableEq, Repr

/-- `Move` from `shared/types.ts`.  `fromSq`/`toSq` model the source's
`from`/`to` fields (`from` is reserved in Lean).  `timestamp` is set by
`Date.now()` in the source, an environmental value outside the model; it
is fixed to `0` here and no claim mentions it.  `enPassant` is an
optional boolean in the source (`undefined` behaves as `false`). -/
structure Move where
  fromSq : Str
  toSq : Str
  piece : Piece
  capturedPiece : Option Piece
  promotion : Option PieceType
  castling : Option CastleSide
  enPassant : Bool
  san : Str
  fen : Str
  timestamp : Nat
deriving DecidableEq, Repr

/-- `GameState` from `shared/types.ts`.  The board is the source's
`(Piece | null)[][]`, row 0 = rank 8.  `halfmoveClock` and
`fullmoveNumber` are JS numbers that can hold `NaN` (modelled `none`)
when the FEN clock fields are non-numeric. -/
structure GameState where
  board : List (List (Option Piece))
  currentPlayer : Str
  castlingRights : CastlingRights
  enPassantTarget : Option Str
  halfmoveClock : Option Nat
  fullmoveNumber : Option Nat
  moves : List Move
  isCheck : Bool
  isCheckmate : Bool
  isStalemate : Bool
  isDraw : Bool
  fen : Str
deriving DecidableEq, Repr

abbrev Board := List (List (Option Piece))

/-! ## Small string / number helpers (JS semantics) -/

/-- Split a character list at every occurrence of `sep`; models JS
`String.prototype.split` with a single-character separator. -/
def splitOnC (sep : Char) : List Char → List (List Char)
  | [] => [[]]
  | c :: rest =>
    if c = sep then [] :: splitOnC sep rest
    else
      match splitOnC sep rest with
      | [] => [[c]]
      | g :: gs => (c :: g) :: gs

/-- Decimal digit character for `n < 10`. -/
def digitChar (n : Nat) : Char := Char.ofNat ('0'.toNat + n)

/-- Fuel-driven decimal rendering (structural recursion so that the
kernel can evaluate it). -/
def natCharsAux : Nat → Nat → List Char
  | 0, _ => []
  | fuel + 1, n =>
    if n < 10 then [digitChar n]
    else natCharsAux fuel (n / 10) ++ [digitChar (n % 10)]

/-- Decimal rendering of a natural number; models JS number-to-string
coercion for the non-negative integers the engine produces. -/
def natChars (n : Nat) : List Char := natCharsAux (n + 1) n

/-- JS string coercion of an integer (template literal `${rank}`). -/
def intChars (n : Int) : List Char :=
  if n < 0 then '-' :: natChars n.natAbs else natChars n.natAbs

/-- Value of a decimal digit character. -/
def dval (c : Char) : Nat := c.toNat - '0'.toNat

/-- Is `c` one of `'0'`..`'9'`? -/
def isDigitC (c : Char) : Bool := '0' ≤ c && c ≤ '9'

/-- Numeric value of a list of digit characters. -/
def digitsVal (ds : List Char) : Nat := ds.foldl (fun acc c => acc * 10 + dval c) 0

/-- Model of JS `parseInt` on the strings the engine feeds it: reads the
longest digit prefix; `none` models the `NaN` result when there is no
digit prefix.  (JS `parseInt` additionally trims whitespace and accepts
a sign; no FEN field handled by the engine, well-formed or claim
relevant, uses either.) -/
def parseIntJS (s : Str) : Option Nat :=
  let ds := s.takeWhile isDigitC
  if ds.isEmpty then none else some (digitsVal ds)

/-- JS `${x}` for the clock fields: `NaN` prints as `"NaN"`. -/
def numChars : Option Nat → Str
  | none => "NaN".toList
  | some n => natChars n

/-- JS `Array.prototype.indexOf`: index of `c`, or `-1`. -/
def jsIndexOf (l : List Char) (c : Char) : Int :=
  match l.indexOf? c with
  | some i => (i : Int)
  | none => -1

/-- JS `toLowerCase` on the single characters the engine lowercases. -/
def jsToLower (c : Char) : Char :=
  if 'A' ≤ c ∧ c ≤ 'Z' then Char.ofNat (c.toNat + 32) else c

/-- JS `toUpperCase` on single letters. -/
def jsToUpper (c : Char) : Char :=
  if 'a' ≤ c ∧ c ≤ 'z' then Char.ofNat (c.toNat - 32) else c

/-! ## ChessUtils (`shared/utils.ts`) -/

/-- `Position` from `shared/types.ts`; `rank` is a JS number. -/
structure Position where
  file : Char
  rank : Int
deriving DecidableEq, Repr

/-- `ChessUtils.files`. -/
def files : List Char := ['a', 'b', 'c', 'd', 'e', 'f', 'g', 'h']

/-- `ChessUtils.ranks` (JS numbers 1..8). -/
def ranksList : List Int := [1, 2, 3, 4, 5, 6, 7, 8]

/-- `parseInt(square[1])` on a single character: a digit's value,
otherwise `NaN`.  `NaN` is modelled by a sentinel far outside every
comparison range the engine uses (every use either guards with
`isValidSquare`, which rejects it, or produces an out-of-range board
index exactly as `NaN` does in JS). -/
def charRankVal (c : Char) : Int :=
  if '0' ≤ c ∧ c ≤ '9' then ((dval c : Nat) : Int) else -1000

/-- `ChessUtils.squareToPosition`. -/
def squareToPosition (sq : Str) : Position :=
  { file := sq.getD 0 ' ', rank := charRankVal (sq.getD 1 ' ') }

/-- `ChessUtils.positionToSquare` (template literal `${file}${rank}`). -/
def positionToSquare (p : Position) : Str := p.file :: intChars p.rank

/-- `ChessUtils.positionToIndex`: `row = 8 - rank`, `col = files.indexOf file`. -/
def positionToIndex (p : Position) : Int × Int :=
  (8 - p.rank, jsIndexOf files p.file)

/-- `ChessUtils.indexToPosition` (called only with `0 ≤ row, col < 8`). -/
def indexToPosition (row col : Nat) : Position :=
  { file := files.getD col ' ', rank := 8 - (row : Int) }

/-- `ChessUtils.squareToIndex`. -/
def squareToIndex (sq : Str) : Int × Int := positionToIndex (squareToPosition sq)

/-- `ChessUtils.indexToSquare`. -/
def indexToSquare (row col : Nat) : Str := positionToSquare (indexToPosition row col)

/-- `ChessUtils.isValidSquare`. -/
def isValidSquare (sq : Str) : Bool :=
  sq.length = 2 && files.contains (sq.getD 0 ' ')
    && ranksList.contains (charRankVal (sq.getD 1 ' '))

/-- `ChessUtils.getDistance`: `(dx, dy)`. -/
def getDistance (p q : Position) : Int × Int :=
  (jsIndexOf files q.file - jsIndexOf files p.file, q.rank - p.rank)

/-- `ChessUtils.getSquaresBetween`: the strictly intermediate squares on
the line from `fromSq` to `toSq`. -/
def getSquaresBetween (fromSq toSq : Str) : List Str :=
  let fromPos := squareToPosition fromSq
  let toPos := squareToPosition toSq
  let (dx, dy) := getDistance fromPos toPos
  let steps := max dx.natAbs dy.natAbs
  if steps = 0 then []
  else
    let stepX : Int := if dx = 0 then 0 else dx / dx.natAbs
    let stepY : Int := if dy = 0 then 0 else dy / dy.natAbs
    (List.range' 1 (steps - 1)).filterMap (fun i =>
      let fileIdx := jsIndexOf files fromPos.file + (i : Int) * stepX
      let newFile : Option Char :=
        if 0 ≤ fileIdx ∧ fileIdx < 8 then some (files.getD fileIdx.toNat ' ') else none
      let newRank := fromPos.rank + (i : Int) * stepY
      match newFile with
      | some f => if ranksList.contains newRank
                  then some (positionToSquare { file := f, rank := newRank }) else none
      | none => none)

/-! ## Board access

The source reads `this.gameState.board[row][col]` without bounds checks:
a `row` outside the array throws, a `col` outside the row yields
`undefined` (falsy, i.e. an empty cell).  The model returns an empty
cell in both situations; every access a claim depends on is in range. -/

/-- Read a board cell, JS-style. -/
def getCell (b : Board) (r c : Int) : Option Piece :=
  if r < 0 ∨ c < 0 then none
  else (b.getD r.toNat []).getD c.toNat none

/-- Write a board cell (`board[row][col] = v`); out-of-range writes are
dropped (JS would throw on a bad row or silently grow the row on a bad
column; no claim-relevant write is out of range). -/
def setCell (b : Board) (r c : Int) (v : Option Piece) : Board :=
  if r < 0 ∨ c < 0 then b
  else b.set r.toNat ((b.getD r.toNat []).set c.toNat v)

/-- `ChessEngine.getPiece(square)`. -/
def getPiece (s : GameState) (sq : Str) : Option Piece :=
  let (r, c) := squareToIndex sq
  getCell s.board r c

/-! ## Notation codec: FEN (`fenToBoard` .. `fenToFullmoveNumber`,
`calculateFEN` / `getFen`) -/

/-- `charToPieceType`: the `mapping[char]` object lookup; `none` models
the `undefined` result on an unmapped character. -/
def charToPieceType (c : Char) : Option PieceType :=
  if c = 'k' then some .king
  else if c = 'q' then some .queen
  else if c = 'r' then some .rook
  else if c = 'b' then some .bishop
  else if c = 'n' then some .knight
  else if c = 'p' then some .pawn
  else none

/-- `charToPiece`.  On an unmapped character the source builds a piece
object with `type: undefined`; the model leaves the cell empty instead,
and no claim exercises unmapped placement characters. -/
def charToPiece (c : Char) : Option Piece :=
  let color := if c = jsToLower c then strBlack else strWhite
  (charToPieceType (jsToLower c)).map (fun t => { type := t, color := color })

/-- `pieceToChar`. -/
def pieceToChar (p : Piece) : Char :=
  let c : Char :=
    match p.type with
    | .king => 'k' | .queen => 'q' | .rook => 'r'
    | .bishop => 'b' | .knight => 'n' | .pawn => 'p'
  if p.color = strWhite then jsToUpper c else c

/-- The per-rank loop body of `fenToBoard`: walk the rank's characters,
skipping `col` ahead on digits `'1'`..`'8'` and writing parsed pieces
into the pre-initialised 8-cell row otherwise. -/
def parseRowGo : List Char → Nat → List (Option Piece) → List (Option Piece)
  | [], _, arr => arr
  | c :: rest, col, arr =>
    if '1' ≤ c ∧ c ≤ '8' then parseRowGo rest (col + dval c) arr
    else parseRowGo rest (col + 1) (arr.set col (charToPiece c))

/-- Parse one rank substring of the placement field. -/
def parseRowTS (chars : List Char) : List (Option Piece) :=
  parseRowGo chars 0 (List.replicate 8 none)

/-- `fenToBoard`.  The source iterates `row` from 0 to 7 over
`placement.split('/')`; when that array has fewer than 8 entries the
`for...of` over `undefined` throws a `TypeError`, modelled as `none`.
Entries beyond the eighth are silently ignored, exactly as in JS. -/
def fenToBoard (fen : Str) : Option Board :=
  let rows := splitOnC '/' ((splitOnC ' ' fen).getD 0 [])
  if rows.length < 8 then none
  else some ((List.range 8).map (fun r => parseRowTS (rows.getD r [])))

/-- `fenToCurrentPlayer`: `fen.split(' ')[1] === 'w' ? 'white' : 'black'`. -/
def fenToCurrentPlayer (fen : Str) : Str :=
  if (splitOnC ' ' fen).getD 1 [] = ['w'] then strWhite else strBlack

/-- `fenToCastlingRights` (guarded by `initGame`: JS throws when the
field is missing). -/
def fenToCastlingRights (fen : Str) : CastlingRights :=
  let c := (splitOnC ' ' fen).getD 2 []
  { whiteKingside := c.contains 'K', whiteQueenside := c.contains 'Q'
    blackKingside := c.contains 'k', blackQueenside := c.contains 'q' }

/-- `fenToEnPassantTarget`: `'-'` (or a missing field, `undefined`)
means no target. -/
def fenToEnPassantTarget (fen : Str) : Option Str :=
  match (splitOnC ' ' fen).get? 3 with
  | none => none
  | some e => if e = ['-'] then none else some e

/-- `fenToHalfmoveClock`: `parseInt` of the fifth field (`none` = `NaN`). -/
def fenToHalfmoveClock (fen : Str) : Option Nat :=
  parseIntJS ((splitOnC ' ' fen).getD 4 [])

/-- `fenToFullmoveNumber`: `parseInt` of the sixth field. -/
def fenToFullmoveNumber (fen : Str) : Option Nat :=
  parseIntJS ((splitOnC ' ' fen).getD 5 [])

/-- The standard starting FEN used by `initializeGame`. -/
def standardFEN : Str :=
  "rnbqkbnr/pppppppp/8/8/8/8/PPPPPPPP/RNBQKBNR w KQkq - 0 1".toList

/-- `initializeGame(fen)` of the source (named `initGame` here), run on
the FEN it actually uses.  `none` models the two ways construction can
throw: a placement field with fewer than 8 ranks (`fenToBoard`), or
fewer than 3 space-separated fields (`fenToCastlingRights` calls
`.includes` on `undefined`).  Every other input yields a fully
constructed state with no validation whatsoever. -/
def initGame (fen : Str) : Option GameState :=
  if (splitOnC ' ' fen).length < 3 then none
  else
    match fenToBoard fen with
    | none => none
    | some b =>
      some { board := b
             currentPlayer := fenToCurrentPlayer fen
             castlingRights := fenToCastlingRights fen
             enPassantTarget := fenToEnPassantTarget fen
             halfmoveClock := fenToHalfmoveClock fen
             fullmoveNumber := fenToFullmoveNumber fen
             moves := []
             isCheck := false, isCheckmate := false
             isStalemate := false, isDraw := false
             fen := fen }

/-- The `emptyCount` run-length loop of `calculateFEN` over one rank. -/
def serRowGo : List (Option Piece) → Nat → List Char
  | [], cnt => if cnt > 0 then natChars cnt else []
  | none :: rest, cnt => serRowGo rest (cnt + 1)
  | some p :: rest, cnt =>
    (if cnt > 0 then natChars cnt else []) ++ pieceToChar p :: serRowGo rest 0

/-- The 8 cells `board[row][0..7]` as the source's column loop reads
them (`undefined` beyond the row's end is an empty cell). -/
def readRow8 (row : List (Option Piece)) : List (Option Piece) :=
  (List.range 8).map (fun c => row.getD c none)

/-- Serialise one rank of the board. -/
def serRowTS (row : List (Option Piece)) : List Char := serRowGo (readRow8 row) 0

/-- Join rank strings with `'/'` (the source appends `'/'` after ranks 0..6). -/
def joinSlash : List Str → Str
  | [] => []
  | [r] => r
  | r :: rest => r ++ '/' :: joinSlash rest

/-- The placement field of `calculateFEN`. -/
def boardFenField (b : Board) : Str :=
  joinSlash ((List.range 8).map (fun r => serRowTS (b.getD r [])))

/-- The castling characters in `KQkq` order. -/
def castlingChars (cr : CastlingRights) : Str :=
  (if cr.whiteKingside then ['K'] else []) ++ (if cr.whiteQueenside then ['Q'] else [])
    ++ (if cr.blackKingside then ['k'] else []) ++ (if cr.blackQueenside then ['q'] else [])

/-- `${castling || '-'}`: the empty string is falsy. -/
def castlingField (cr : CastlingRights) : Str :=
  let c := castlingChars cr
  if c.isEmpty then ['-'] else c

/-- `${enPassantTarget || '-'}`: `null` and the empty string are falsy. -/
def epField : Option Str → Str
  | none => ['-']
  | some s => if s.isEmpty then ['-'] else s

/-- `calculateFEN`, split on its six fields. -/
def fenOfParts (b : Board) (cp : Str) (cr : CastlingRights) (ep : Option Str)
    (half full : Option Nat) : Str :=
  boardFenField b ++ ' ' :: (if cp = strWhite then ['w'] else ['b'])
    ++ ' ' :: castlingField cr ++ ' ' :: epField ep
    ++ ' ' :: numChars half ++ ' ' :: numChars full

/-- `calculateFEN`. -/
def calculateFEN (s : GameState) : Str :=
  fenOfParts s.board s.currentPlayer s.castlingRights s.enPassantTarget
    s.halfmoveClock s.fullmoveNumber

/-- The public `getFen()`; its body in the source duplicates
`calculateFEN` verbatim. -/
def getFen (s : GameState) : Str := calculateFEN s

/-- A throwaway inhabitant of `GameState` used as the default of
`Option.getD` on branches the source cannot reach. -/
def emptyState : GameState :=
  { board := [], currentPlayer := [], castlingRights := ⟨false, false, false, false⟩
    enPassantTarget := none, halfmoveClock := none, fullmoveNumber := none
    moves := [], isCheck := false, isCheckmate := false, isStalemate := false
    isDraw := false, fen := [] }

/-- The engine state after `new ChessEngine()` (standard start position). -/
def startState : GameState := (initGame standardFEN).getD emptyState

/-! ## Attack detection (`isSquareAttacked`, `canPieceAttackSquare`,
`isPathClear`, `findKing`, `isInCheck`)

These source methods read only `this.gameState.board`, and
`wouldBeInCheck` runs them against a temporarily mutated board, so they
are modelled at board level; the state-level wrappers below mirror the
source signatures. -/

/-- `color === 'white' ? 'black' : 'white'`. -/
def oppColor (c : Str) : Str := if c = strWhite then strBlack else strWhite

/-- `isPathClear`. -/
def isPathClearB (b : Board) (fromSq toSq : Str) : Bool :=
  (getSquaresBetween fromSq toSq).all (fun sq =>
    let (r, c) := squareToIndex sq
    (getCell b r c).isNone)

/-- `canPieceAttackSquare`. -/
def canPieceAttackSquare (b : Board) (fromSq toSq : Str) : Bool :=
  match (let (r, c) := squareToIndex fromSq; getCell b r c) with
  | none => false
  | some p =>
    let (dx, dy) := getDistance (squareToPosition fromSq) (squareToPosition toSq)
    match p.type with
    | .pawn =>
      let direction : Int := if p.color = strWhite then 1 else -1
      dy = direction && dx.natAbs = 1
    | .rook => (dx = 0 || dy = 0) && isPathClearB b fromSq toSq
    | .bishop => dx.natAbs = dy.natAbs && isPathClearB b fromSq toSq
    | .queen => (dx = 0 || dy = 0 || dx.natAbs = dy.natAbs) && isPathClearB b fromSq toSq
    | .knight => (dx.natAbs = 2 && dy.natAbs = 1) || (dx.natAbs = 1 && dy.natAbs = 2)
    | .king => dx.natAbs ≤ 1 && dy.natAbs ≤ 1

/-- `isSquareAttacked(square, byColor)`. -/
def isSquareAttackedB (b : Board) (sq : Str) (byColor : Str) : Bool :=
  (List.range 8).any (fun (row : Nat) => (List.range 8).any (fun (col : Nat) =>
    match getCell b row col with
    | some p => p.color = byColor && canPieceAttackSquare b (indexToSquare row col) sq
    | none => false))

/-- `findKing`: first king of `color` in row-major scan order. -/
def findKing (b : Board) (color : Str) : Option Str :=
  ((List.range 8).flatMap (fun (row : Nat) => (List.range 8).filterMap (fun (col : Nat) =>
    match getCell b row col with
    | some p => if p.type = PieceType.king ∧ p.color = color
                then some (indexToSquare row col) else none
    | none => none))).head?

/-- `isInCheck(color)` against an explicit board. -/
def isInCheckB (b : Board) (color : Str) : Bool :=
  match findKing b color with
  | none => false
  | some ks => isSquareAttackedB b ks (oppColor color)

/-- The public `isInCheck(color)`. -/
def isInCheck (s : GameState) (color : Str) : Bool := isInCheckB s.board color

/-! ## Pseudo-legal move generation -/

/-- A candidate `{ to, promotion? }` as returned by the per-piece move
generators and `getLegalMoves`. -/
structure Cand where
  toSq : Str
  promotion : Option PieceType
deriving DecidableEq, Repr

/-- The promotion expansion `['queen','rook','bishop','knight']`. -/
def promoTypes : List PieceType := [.queen, .rook, .bishop, .knight]

/-- `getPawnMoves`. -/
def getPawnMoves (s : GameState) (sq : Str) : List Cand :=
  match getPiece s sq with
  | none => []
  | some piece =>
    let position := squareToPosition sq
    let direction : Int := if piece.color = strWhite then 1 else -1
    let startRank : Int := if piece.color = strWhite then 2 else 7
    let promotionRank : Int := if piece.color = strWhite then 8 else 1
    let oneForward := positionToSquare { file := position.file, rank := position.rank + direction }
    let forwardMoves :=
      if isValidSquare oneForward && (getPiece s oneForward).isNone then
        (if position.rank + direction = promotionRank then
           promoTypes.map (fun pt => { toSq := oneForward, promotion := some pt })
         else [{ toSq := oneForward, promotion := none }])
        ++ (if position.rank = startRank then
              let twoForward := positionToSquare
                { file := position.file, rank := position.rank + 2 * direction }
              if (getPiece s twoForward).isNone then [{ toSq := twoForward, promotion := none }]
              else []
            else [])
      else []
    let fileIndex := jsIndexOf files position.file
    let capMoves := ([-1, 1] : List Int).flatMap (fun fileOffset =>
      let targetFileIndex := fileIndex + fileOffset
      if 0 ≤ targetFileIndex ∧ targetFileIndex < 8 then
        let targetSquare := positionToSquare
          { file := files.getD targetFileIndex.toNat ' ', rank := position.rank + direction }
        if isValidSquare targetSquare then
          (match getPiece s targetSquare with
           | some tp =>
             if tp.color ≠ piece.color then
               (if position.rank + direction = promotionRank then
                  promoTypes.map (fun pt => { toSq := targetSquare, promotion := some pt })
                else [{ toSq := targetSquare, promotion := none }])
             else []
           | none => [])
          ++ (if s.enPassantTarget = some targetSquare then
                [{ toSq := targetSquare, promotion := none }] else [])
        else []
      else [])
    forwardMoves ++ capMoves

/-- One ray of `getSlidingMoves`: the `for i in 1..7` loop with its
`break`s; `fuel` counts the remaining iterations. -/
def rayGo (b : Board) (pc : Str) (row col dr dc : Int) : Nat → Nat → List Cand
  | _, 0 => []
  | i, fuel + 1 =>
    let newRow := row + (i : Int) * dr
    let newCol := col + (i : Int) * dc
    if newRow < 0 ∨ newRow ≥ 8 ∨ newCol < 0 ∨ newCol ≥ 8 then []
    else
      let targetSquare := indexToSquare newRow.toNat newCol.toNat
      match getCell b newRow newCol with
      | none => { toSq := targetSquare, promotion := none } :: rayGo b pc row col dr dc (i + 1) fuel
      | some tp =>
        if tp.color ≠ pc then [{ toSq := targetSquare, promotion := none }] else []

/-- `getSlidingMoves`. -/
def getSlidingMoves (s : GameState) (sq : Str) (directions : List (Int × Int)) : List Cand :=
  match getPiece s sq with
  | none => []
  | some piece =>
    let (row, col) := squareToIndex sq
    directions.flatMap (fun d => rayGo s.board piece.color row col d.1 d.2 1 7)

/-- `getRookMoves`. -/
def getRookMoves (s : GameState) (sq : Str) : List Cand :=
  getSlidingMoves s sq [(0, 1), (0, -1), (1, 0), (-1, 0)]

/-- `getBishopMoves`. -/
def getBishopMoves (s : GameState) (sq : Str) : List Cand :=
  getSlidingMoves s sq [(1, 1), (1, -1), (-1, 1), (-1, -1)]

/-- `getQueenMoves`. -/
def getQueenMoves (s : GameState) (sq : Str) : List Cand :=
  getSlidingMoves s sq
    [(0, 1), (0, -1), (1, 0), (-1, 0), (1, 1), (1, -1), (-1, 1), (-1, -1)]

/-- The fixed offset list of `getKnightMoves`. -/
def knightOffsets : List (Int × Int) :=
  [(-2, -1), (-2, 1), (-1, -2), (-1, 2), (1, -2), (1, 2), (2, -1), (2, 1)]

/-- The fixed offset list of `getKingMoves`. -/
def kingOffsets : List (Int × Int) :=
  [(-1, -1), (-1, 0), (-1, 1), (0, -1), (0, 1), (1, -1), (1, 0), (1, 1)]

/-- The shared offset-move body of `getKnightMoves`/`getKingMoves`. -/
def offsetMoves (b : Board) (pc : Str) (row col : Int) (offs : List (Int × Int)) : List Cand :=
  offs.flatMap (fun d =>
    let newRow := row + d.1
    let newCol := col + d.2
    if 0 ≤ newRow ∧ newRow < 8 ∧ 0 ≤ newCol ∧ newCol < 8 then
      let targetSquare := indexToSquare newRow.toNat newCol.toNat
      match getCell b newRow newCol with
      | none => [{ toSq := targetSquare, promotion := none }]
      | some tp => if tp.color ≠ pc then [{ toSq := targetSquare, promotion := none }] else []
    else [])

/-- `getKnightMoves`. -/
def getKnightMoves (s : GameState) (sq : Str) : List Cand :=
  match getPiece s sq with
  | none => []
  | some piece =>
    let (row, col) := squareToIndex sq
    offsetMoves s.board piece.color row col knightOffsets

/-- `canCastleKingside`. -/
def canCastleKingside (s : GameState) (color : Str) : Bool :=
  let canC := if color = strWhite then s.castlingRights.whiteKingside
              else s.castlingRights.blackKingside
  if !canC then false
  else
    let rank : Char := if color = strWhite then '1' else '8'
    let squares : List Str := [['f', rank], ['g', rank]]
    if squares.any (fun sq => (getPiece s sq).isSome) then false
    else !(squares.any (fun sq => isSquareAttackedB s.board sq (oppColor color)))

/-- `canCastleQueenside` (only c and d are tested for attacks). -/
def canCastleQueenside (s : GameState) (color : Str) : Bool :=
  let canC := if color = strWhite then s.castlingRights.whiteQueenside
              else s.castlingRights.blackQueenside
  if !canC then false
  else
    let rank : Char := if color = strWhite then '1' else '8'
    let squares : List Str := [['b', rank], ['c', rank], ['d', rank]]
    if squares.any (fun sq => (getPiece s sq).isSome) then false
    else
      let checkSquares : List Str := [['c', rank], ['d', rank]]
      !(checkSquares.any (fun sq => isSquareAttackedB s.board sq (oppColor color)))

/-- `getKingMoves` (offset moves plus castling candidates). -/
def getKingMoves (s : GameState) (sq : Str) : List Cand :=
  match getPiece s sq with
  | none => []
  | some piece =>
    let (row, col) := squareToIndex sq
    let basic := offsetMoves s.board piece.color row col kingOffsets
    let castles :=
      if !(isInCheck s piece.color) then
        (if canCastleKingside s piece.color then
           [{ toSq := if piece.color = strWhite then "g1".toList else "g8".toList
              promotion := none }]
         else [])
        ++ (if canCastleQueenside s piece.color then
              [{ toSq := if piece.color = strWhite then "c1".toList else "c8".toList
                 promotion := none }]
            else [])
      else []
    basic ++ castles

/-- `getPseudoLegalMoves`. -/
def getPseudoLegalMoves (s : GameState) (sq : Str) : List Cand :=
  match getPiece s sq with
  | none => []
  | some piece =>
    match piece.type with
    | .pawn => getPawnMoves s sq
    | .rook => getRookMoves s sq
    | .bishop => getBishopMoves s sq
    | .queen => getQueenMoves s sq
    | .knight => getKnightMoves s sq
    | .king => getKingMoves s sq

/-! ## Legality filter -/

/-- The board produced by the speculative mutation inside
`wouldBeInCheck`: clear `from`, place the (possibly promoted) piece on
`to`, and, when the move is an en-passant capture, remove the captured
pawn from the square behind the target.  The source performs these
writes on `this.gameState.board` and restores them before returning;
in the pure model the scratch board is simply a value. -/
def simBoard (s : GameState) (fromSq toSq : Str) (promotion : Option PieceType)
    (piece : Piece) : Board :=
  let (fromRow, fromCol) := squareToIndex fromSq
  let (toRow, toCol) := squareToIndex toSq
  let b1 := setCell s.board fromRow fromCol none
  let b2 := setCell b1 toRow toCol
    (some (match promotion with
           | some pt => { type := pt, color := piece.color }
           | none => piece))
  if piece.type = PieceType.pawn ∧ s.enPassantTarget = some toSq then
    let captureRow := if piece.color = strWhite then toRow + 1 else toRow - 1
    setCell b2 captureRow toCol none
  else b2

/-- `wouldBeInCheck(from, to, promotion)`. -/
def wouldBeInCheck (s : GameState) (fromSq toSq : Str) (promotion : Option PieceType) : Bool :=
  match getPiece s fromSq with
  | none => true
  | some piece => isInCheckB (simBoard s fromSq toSq promotion piece) piece.color

/-- `getLegalMoves(square)`: pseudo-legal moves filtered by
`!wouldBeInCheck`. -/
def getLegalMoves (s : GameState) (sq : Str) : List Cand :=
  match getPiece s sq with
  | none => []
  | some piece =>
    if piece.color ≠ s.currentPlayer then []
    else (getPseudoLegalMoves s sq).filter (fun m => !wouldBeInCheck s sq m.toSq m.promotion)

/-- `isValidMove(from, to, promotion)`. -/
def isValidMove (s : GameState) (fromSq toSq : Str) (promotion : Option PieceType) : Bool :=
  match getPiece s fromSq with
  | none => false
  | some piece =>
    if piece.color ≠ s.currentPlayer then false
    else (getLegalMoves s fromSq).any (fun m => m.toSq = toSq && m.promotion = promotion)

/-- `getAllLegalMoves`. -/
def getAllLegalMoves (s : GameState) : List (Str × Cand) :=
  (List.range 8).flatMap (fun row => (List.range 8).flatMap (fun col =>
    match getCell s.board row col with
    | some p =>
      if p.color = s.currentPlayer then
        (getLegalMoves s (indexToSquare row col)).map (fun m => (indexToSquare row col, m))
      else []
    | none => []))

/-! ## Move execution (`executeMove` and helpers) -/

/-- `executeCastling`: move the king two files, relocate the rook, tag
the move, and clear both of the mover's castling rights. -/
def executeCastling (s : GameState) (mv : Move) : GameState × Move :=
  let (fromRow, fromCol) := squareToIndex mv.fromSq
  let (toRow, toCol) := squareToIndex mv.toSq
  let b1 := setCell s.board fromRow fromCol none
  let b2 := setCell b1 toRow toCol (some mv.piece)
  let cr := if mv.piece.color = strWhite
    then { s.castlingRights with whiteKingside := false, whiteQueenside := false }
    else { s.castlingRights with blackKingside := false, blackQueenside := false }
  if fromCol < toCol then
    let b3 := setCell b2 toRow 7 none
    let b4 := setCell b3 toRow 5 (some { type := PieceType.rook, color := mv.piece.color })
    ({ s with board := b4, castlingRights := cr }, { mv with castling := some .kingside })
  else
    let b3 := setCell b2 toRow 0 none
    let b4 := setCell b3 toRow 3 (some { type := PieceType.rook, color := mv.piece.color })
    ({ s with board := b4, castlingRights := cr }, { mv with castling := some .queenside })

/-- `executeEnPassant`: move the pawn and remove the captured pawn from
the square behind the target. -/
def executeEnPassant (s : GameState) (mv : Move) : GameState × Move :=
  let (fromRow, fromCol) := squareToIndex mv.fromSq
  let (toRow, toCol) := squareToIndex mv.toSq
  let b1 := setCell s.board fromRow fromCol none
  let b2 := setCell b1 toRow toCol (some mv.piece)
  let capturedRow := if mv.piece.color = strWhite then toRow + 1 else toRow - 1
  let b3 := setCell b2 capturedRow toCol none
  ({ s with board := b3 }, { mv with enPassant := true })

/-- `updateCastlingRights`: clear rights when the king moves, or when a
rook moves off `a1`/`h1`/`a8`/`h8`.  (Nothing clears a right when the
rook is captured on its origin square.) -/
def updateCastlingRights (s : GameState) (mv : Move) : GameState :=
  let s1 :=
    if mv.piece.type = PieceType.king then
      if mv.piece.color = strWhite then
        { s with castlingRights :=
            { s.castlingRights with whiteKingside := false, whiteQueenside := false } }
      else
        { s with castlingRights :=
            { s.castlingRights with blackKingside := false, blackQueenside := false } }
    else s
  if mv.piece.type = PieceType.rook then
    let r1 := s1.castlingRights
    let r2 := if mv.fromSq = "a1".toList then { r1 with whiteQueenside := false } else r1
    let r3 := if mv.fromSq = "h1".toList then { r2 with whiteKingside := false } else r2
    let r4 := if mv.fromSq = "a8".toList then { r3 with blackQueenside := false } else r3
    let r5 := if mv.fromSq = "h8".toList then { r4 with blackKingside := false } else r4
    { s1 with castlingRights := r5 }
  else s1

/-- `updateEnPassantTarget`: set the skipped square after a pawn
double-step, clear it otherwise. -/
def updateEnPassantTarget (s : GameState) (mv : Move) : GameState :=
  if mv.piece.type = PieceType.pawn then
    let fromPos := squareToPosition mv.fromSq
    let toPos := squareToPosition mv.toSq
    if (toPos.rank - fromPos.rank).natAbs = 2 then
      let enPassantRank := (fromPos.rank + toPos.rank) / 2
      let target := positionToSquare { file := fromPos.file, rank := enPassantRank }
      { s with enPassantTarget := some target }
    else { s with enPassantTarget := none }
  else { s with enPassantTarget := none }

/-- `updateClocks`: reset the halfmove clock on a pawn move or capture,
else increment (`NaN` stays `NaN`); increment the fullmove number when
the mover (the still-unflipped `currentPlayer`) is black. -/
def updateClocks (s : GameState) (mv : Move) : GameState :=
  let half := if mv.piece.type = PieceType.pawn ∨ mv.capturedPiece.isSome then some 0
              else s.halfmoveClock.map (· + 1)
  let full := if s.currentPlayer = strBlack then s.fullmoveNumber.map (· + 1)
              else s.fullmoveNumber
  { s with halfmoveClock := half, fullmoveNumber := full }

/-- `executeMove`.  Note the two early returns of the source: the
castling and en-passant branches return without running
`updateCastlingRights` (castling handles rights itself),
`updateEnPassantTarget` or `updateClocks`. -/
def executeMove (s : GameState) (mv : Move) : GameState × Move :=
  let (_, fromCol) := squareToIndex mv.fromSq
  let (_, toCol) := squareToIndex mv.toSq
  if mv.piece.type = PieceType.king ∧ (fromCol - toCol).natAbs = 2 then
    executeCastling s mv
  else if mv.piece.type = PieceType.pawn ∧ s.enPassantTarget = some mv.toSq then
    executeEnPassant s mv
  else
    let (fromRow, fromCol) := squareToIndex mv.fromSq
    let (toRow, toCol) := squareToIndex mv.toSq
    let b1 := setCell s.board fromRow fromCol none
    let b2 := setCell b1 toRow toCol
      (some (match mv.promotion with
             | some pt => { type := pt, color := mv.piece.color }
             | none => mv.piece))
    let s1 := { s with board := b2 }
    let s2 := updateCastlingRights s1 mv
    let s3 := updateEnPassantTarget s2 mv
    (updateClocks s3 mv, mv)

/-! ## SAN and game status -/

/-- `piece.type.charAt(0).toUpperCase()` on the type-name string; note
that `'knight'` also yields `'K'` in the source. -/
def typeNameChar : PieceType → Char
  | .king => 'K' | .queen => 'Q' | .rook => 'R'
  | .bishop => 'B' | .knight => 'K' | .pawn => 'P'

/-- `calculateSAN(move)`, evaluated against the post-`executeMove`
state; it reads `this.gameState.isCheckmate`, still the stale pre-move
flag at that point of `makeMove`. -/
def calculateSAN (s1 : GameState) (mv : Move) : Str :=
  match mv.castling with
  | some side => if side = CastleSide.kingside then "O-O".toList else "O-O-O".toList
  | none =>
    let san1 := if mv.piece.type ≠ PieceType.pawn then [typeNameChar mv.piece.type] else []
    let san2 := san1 ++
      (match mv.capturedPiece with
       | some _ =>
         (if mv.piece.type = PieceType.pawn then [mv.fromSq.getD 0 ' '] else []) ++ ['x']
       | none => [])
    let san3 := san2 ++ mv.toSq
    let san4 := san3 ++
      (match mv.promotion with
       | some pt => ['=', typeNameChar pt]
       | none => [])
    let oppositeC := if mv.piece.color = strWhite then strBlack else strWhite
    san4 ++ (if isInCheck s1 oppositeC then (if s1.isCheckmate then ['#'] else ['+']) else [])

/-- `hasLegalMoves(color)`: some own piece has a non-empty
`getLegalMoves`. -/
def hasLegalMoves (s : GameState) (color : Str) : Bool :=
  (List.range 8).any (fun (row : Nat) => (List.range 8).any (fun (col : Nat) =>
    match getCell s.board row col with
    | some p => p.color = color && !(getLegalMoves s (indexToSquare row col)).isEmpty
    | none => false))

/-- `isDrawByFiftyMoveRule`: `halfmoveClock >= 100` (`NaN` compares
false). -/
def isDrawByFiftyMoveRule (s : GameState) : Bool :=
  match s.halfmoveClock with
  | some n => 100 ≤ n
  | none => false

/-- `isDrawByInsufficientMaterial`: two lone kings, or king+minor vs
king. -/
def isDrawByInsufficientMaterial (s : GameState) : Bool :=
  let pieces := (List.range 8).flatMap (fun (row : Nat) =>
    (List.range 8).filterMap (fun (col : Nat) => getCell s.board row col))
  if pieces.length = 2 then true
  else if pieces.length = 3 then
    let nonKings := pieces.filter (fun p => p.type ≠ PieceType.king)
    nonKings.length = 1 &&
      (match nonKings.head? with
       | some p => p.type = PieceType.bishop || p.type = PieceType.knight
       | none => false)
  else false

/-- `isDrawByThreefoldRepetition`: count full FEN strings over the
stored per-move FENs plus the current position (the source tallies them
in an object map; counting occurrences directly is the same test). -/
def isDrawByThreefoldRepetition (s : GameState) : Bool :=
  let positions := s.moves.map (fun m => m.fen) ++ [calculateFEN s]
  positions.any (fun fen => 3 ≤ (positions.filter (fun y => y = fen)).length)

/-- `updateGameStatus`, relative to the player now to move. -/
def updateGameStatus (s : GameState) : GameState :=
  let inCheck := isInCheck s s.currentPlayer
  let hasMoves := hasLegalMoves s s.currentPlayer
  let isStale := !inCheck && !hasMoves
  { s with isCheck := inCheck
           isCheckmate := inCheck && !hasMoves
           isStalemate := isStale
           isDraw := isStale || isDrawByFiftyMoveRule s
             || isDrawByInsufficientMaterial s || isDrawByThreefoldRepetition s }

/-! ## The public move API -/

/-- `makeMove(from, to, promotion)`.  Returns `(null, unchanged state)`
on an invalid request; otherwise executes the move, computes SAN,
appends to history, stores the recalculated FEN (the source does this
before flipping `currentPlayer`), flips the turn and refreshes the
status flags. -/
def makeMove (s : GameState) (fromSq toSq : Str) (promotion : Option PieceType) :
    Option Move × GameState :=
  if !isValidMove s fromSq toSq promotion then (none, s)
  else
    match getPiece s fromSq with
    | none => (none, s)
    | some piece =>
      let capturedPiece := getPiece s toSq
      let fenBeforeMove := calculateFEN s
      let mv0 : Move :=
        { fromSq := fromSq, toSq := toSq, piece := piece
          capturedPiece := capturedPiece, promotion := promotion
          castling := none, enPassant := false, san := []
          fen := fenBeforeMove, timestamp := 0 }
      let er := executeMove s mv0
      let s1 := er.1
      let mv1 := er.2
      let mv2 := { mv1 with san := calculateSAN s1 mv1 }
      let s2 := { s1 with
        moves := s1.moves ++ [mv2]
        fen := calculateFEN s1
        currentPlayer := if s1.currentPlayer = strWhite then strBlack else strWhite }
      (some mv2, updateGameStatus s2)

/-- `undoMove()`: pop the last move, rebuild the state from the FEN
stored on it, restore the shortened history, and hand the turn to the
mover of the undone move.  The outer `none` models the (unreachable for
engine-produced histories) throw of `initializeGame` on an unparseable
stored FEN; `some (none, s)` is the `null` return on an empty history. -/
def undoMove (s : GameState) : Option (Option Move × GameState) :=
  match s.moves.getLast? with
  | none => some (none, s)
  | some lastMove =>
    let movesHistory := s.moves.dropLast
    match initGame lastMove.fen with
    | none => none
    | some st =>
      some (some lastMove,
        { st with moves := movesHistory, currentPlayer := lastMove.piece.color })

/-! ## History navigation (`goToMoveIndex`, `resetToInitialPosition`,
`replayMove`) -/

/-- `resetToInitialPosition`: replace the game state with a fresh
standard-start state (the argumentless `initializeGame()` always uses
the standard FEN, even for games constructed from a custom FEN) while
keeping the move history. -/
def resetToInitialPosition (s : GameState) : GameState :=
  match initGame standardFEN with
  | some st => { st with moves := s.moves }
  | none => s

/-- `replayMove(move)`: re-apply a stored move's board mechanics, then
restore player / en-passant target / castling rights from the move's
stored FEN.  The source assigns the raw `'w'`/`'b'` FEN field to
`currentPlayer` through an unchecked `as 'white' | 'black'` cast; the
model stores that raw string just as the runtime does. -/
def replayMove (s : GameState) (mv : Move) : GameState :=
  match getPiece s mv.fromSq with
  | none => s
  | some piece =>
    let (fromRow, fromCol) := squareToIndex mv.fromSq
    let (toRow, toCol) := squareToIndex mv.toSq
    let b :=
      match mv.castling with
      | some .kingside =>
        let b1 := setCell s.board fromRow fromCol none
        let b2 := setCell b1 toRow toCol (some piece)
        let b3 := setCell b2 fromRow 7 none
        setCell b3 fromRow 5 (some { type := PieceType.rook, color := piece.color })
      | some .queenside =>
        let b1 := setCell s.board fromRow fromCol none
        let b2 := setCell b1 toRow toCol (some piece)
        let b3 := setCell b2 fromRow 0 none
        setCell b3 fromRow 3 (some { type := PieceType.rook, color := piece.color })
      | none =>
        if mv.enPassant then
          let b1 := setCell s.board fromRow fromCol none
          let b2 := setCell b1 toRow toCol (some piece)
          let capturedPawnRow := if piece.color = strWhite then toRow + 1 else toRow - 1
          setCell b2 capturedPawnRow toCol none
        else
          let b1 := setCell s.board fromRow fromCol none
          setCell b1 toRow toCol (some piece)
    let b' :=
      match mv.promotion with
      | some pt => setCell b toRow toCol (some { type := pt, color := piece.color })
      | none => b
    if mv.fen.isEmpty then
      { s with board := b'
               currentPlayer := if s.currentPlayer = strWhite then strBlack else strWhite }
    else
      let fenParts := splitOnC ' ' mv.fen
      if 4 ≤ fenParts.length then
        { s with board := b'
                 currentPlayer := fenParts.getD 1 []
                 enPassantTarget :=
                   if fenParts.getD 3 [] = ['-'] then none else some (fenParts.getD 3 [])
                 castlingRights :=
                   { whiteKingside := (fenParts.getD 2 []).contains 'K'
                     whiteQueenside := (fenParts.getD 2 []).contains 'Q'
                     blackKingside := (fenParts.getD 2 []).contains 'k'
                     blackQueenside := (fenParts.getD 2 []).contains 'q' } }
      else { s with board := b' }

/-- `goToMoveIndex(moveIndex)`: out-of-range indices are ignored; `-1`
resets to the starting position; otherwise the position is rebuilt from
the start by replaying moves `0..moveIndex`.  This rewrites
`this.gameState` in place — only the move list survives. -/
def goToMoveIndex (s : GameState) (moveIndex : Int) : GameState :=
  let totalMoves := s.moves.length
  if moveIndex < -1 ∨ (totalMoves : Int) ≤ moveIndex then s
  else if moveIndex = -1 then resetToInitialPosition s
  else
    let base := resetToInitialPosition s
    (List.range (moveIndex.toNat + 1)).foldl (fun st i =>
      match st.moves.get? i with
      | some mv => replayMove st mv
      | none => st) base

/-! ## Generic helper lemmas -/

theorem set_append_len {α : Type} (pre l : List α) (i : Nat) (v : α) :
    (pre ++ l).set (pre.length + i) v = pre ++ l.set i v := by
  induction pre with
  | nil => simp
  | cons a t ih =>
    have h : (a :: t).length + i = (t.length + i) + 1 := by simp; omega
    rw [h]
    show a :: (t ++ l).set (t.length + i) v = a :: (t ++ l.set i v)
    rw [ih]

theorem replicate_set {α : Type} (cnt m : Nat) (d v : α) :
    (List.replicate (cnt + 1 + m) d).set cnt v
      = List.replicate cnt d ++ v :: List.replicate m d := by
  induction cnt with
  | zero =>
    rw [show 0 + 1 + m = m + 1 by omega, List.replicate_succ]
    simp
  | succ k ih =>
    rw [show k + 1 + 1 + m = (k + 1 + m) + 1 by omega, List.replicate_succ]
    show d :: (List.replicate (k + 1 + m) d).set k v = _
    rw [ih, List.replicate_succ]
    simp

theorem getD_map_range {α : Type} (l : List α) (d : α) :
    ∀ (n : Nat), l.length = n → (List.range n).map (fun i => l.getD i d) = l := by
  induction l with
  | nil => intro n h; simp at h; subst h; simp
  | cons a t ih =>
    intro n h
    cases n with
    | zero => simp at h
    | succ m =>
      have hm : t.length = m := by simpa using h
      rw [List.range_succ_eq_map, List.map_cons, List.map_map]
      congr 1
      rw [show ((fun i => (a :: t).getD i d) ∘ fun x => x + 1) = (fun i => t.getD i d)
            from funext (fun i => rfl)]
      exact ih m hm

theorem map_range_getD {α β : Type} (l : List α) (d : α) (f : α → β) (n : Nat)
    (h : l.length = n) :
    (List.range n).map (fun i => f (l.getD i d)) = l.map f := by
  have := getD_map_range l d n h
  calc (List.range n).map (fun i => f (l.getD i d))
      = ((List.range n).map (fun i => l.getD i d)).map f := by rw [List.map_map]; rfl
    _ = l.map f := by rw [this]

/-! ## Lemmas about `splitOnC` -/

theorem splitOnC_of_not_mem {sep : Char} {l : List Char} (h : sep ∉ l) :
    splitOnC sep l = [l] := by
  induction l with
  | nil => rfl
  | cons c rest ih =>
    have hc : ¬c = sep := fun hh => h (hh ▸ List.mem_cons_self c rest)
    have hrest : sep ∉ rest := fun hh => h (List.mem_cons_of_mem c hh)
    rw [splitOnC, if_neg hc, ih hrest]

theorem splitOnC_append_cons {sep : Char} {a : List Char} (b : List Char) (h : sep ∉ a) :
    splitOnC sep (a ++ sep :: b) = a :: splitOnC sep b := by
  induction a with
  | nil => simp [splitOnC]
  | cons c rest ih =>
    have hc : ¬c = sep := fun hh => h (hh ▸ List.mem_cons_self c rest)
    have hrest : sep ∉ rest := fun hh => h (List.mem_cons_of_mem c hh)
    rw [List.cons_append, splitOnC, if_neg hc, ih hrest]

theorem splitOnC_joinSlash (rs : List Str) (hne : rs ≠ [])
    (h : ∀ r ∈ rs, '/' ∉ r) : splitOnC '/' (joinSlash rs) = rs := by
  induction rs with
  | nil => exact absurd rfl hne
  | cons r rest ih =>
    cases rest with
    | nil =>
      rw [joinSlash]
      exact splitOnC_of_not_mem (h r (List.mem_cons_self r []))
    | cons r2 rest2 =>
      have hj : joinSlash (r :: r2 :: rest2) = r ++ '/' :: joinSlash (r2 :: rest2) := rfl
      rw [hj, splitOnC_append_cons _ (h r (List.mem_cons_self _ _))]
      rw [ih (by intro hh; cases hh) (fun x hx => h x (List.mem_cons_of_mem r hx))]

/-! ## Lemmas about decimal rendering -/

theorem digitChar_isDigit {n : Nat} (h : n < 10) : isDigitC (digitChar n) = true := by
  interval_cases n <;> decide

theorem dval_digitChar {n : Nat} (h : n < 10) : dval (digitChar n) = n := by
  interval_cases n <;> decide

theorem mem_natCharsAux_digit :
    ∀ (fuel n : Nat) (c : Char), c ∈ natCharsAux fuel n → isDigitC c = true := by
  intro fuel
  induction fuel with
  | zero => intro n c h; simp [natCharsAux] at h
  | succ k ih =>
    intro n c h
    rw [natCharsAux] at h
    split at h
    · next hn =>
      rcases List.mem_singleton.mp h with rfl
      exact digitChar_isDigit hn
    · rcases List.mem_append.mp h with h1 | h1
      · exact ih _ _ h1
      · rcases List.mem_singleton.mp h1 with rfl
        exact digitChar_isDigit (Nat.mod_lt _ (by omega))

theorem mem_natChars_digit {n : Nat} {c : Char} (h : c ∈ natChars n) : isDigitC c = true :=
  mem_natCharsAux_digit _ _ _ h

theorem natCharsAux_ne_nil :
    ∀ (fuel n : Nat), n < fuel → natCharsAux fuel n ≠ [] := by
  intro fuel
  induction fuel with
  | zero => intro n h; omega
  | succ k _ =>
    intro n _
    rw [natCharsAux]
    split
    · simp
    · simp

theorem natChars_ne_nil (n : Nat) : natChars n ≠ [] :=
  natCharsAux_ne_nil _ _ (by omega)

theorem foldl_natCharsAux :
    ∀ (fuel n a : Nat), n < fuel →
      List.foldl (fun acc c => acc * 10 + dval c) a (natCharsAux fuel n)
        = a * 10 ^ (natCharsAux fuel n).length + n := by
  intro fuel
  induction fuel with
  | zero => intro n a h; omega
  | succ k ih =>
    intro n a h
    rw [natCharsAux]
    split
    · next hn => simp [dval_digitChar hn]
    · next hn =>
      have h10 : 10 ≤ n := by omega
      have hlt : n / 10 < k := by
        have := Nat.div_lt_self (by omega : 0 < n) (by omega : 1 < 10)
        omega
      rw [List.foldl_append, ih (n / 10) a hlt]
      simp only [List.foldl_cons, List.foldl_nil, List.length_append, List.length_singleton]
      rw [dval_digitChar (Nat.mod_lt _ (by omega))]
      have : a * 10 ^ ((natCharsAux k (n / 10)).length + 1)
          = (a * 10 ^ (natCharsAux k (n / 10)).length) * 10 := by ring
      rw [this]
      have := Nat.div_add_mod n 10
      ring_nf
      omega

theorem parseIntJS_natChars (n : Nat) : parseIntJS (natChars n) = some n := by
  rw [parseIntJS]
  have hdig : (natChars n).takeWhile isDigitC = natChars n :=
    List.takeWhile_eq_self_iff.mpr (fun c hc => mem_natChars_digit hc)
  rw [hdig]
  rw [if_neg (by simpa [List.isEmpty_iff] using natChars_ne_nil n)]
  have hval : digitsVal (natChars n) = n := by
    rw [digitsVal, natChars, foldl_natCharsAux _ _ _ (by omega : n < n + 1)]
    simp
  rw [hval]

/-! ## Well-formed positions and FENs

The source never validates FEN text, so "well-formed FEN" is defined
from the serialiser: a well-formed FEN is the canonical serialisation
(`calculateFEN`) of a structurally valid position — an 8×8 board of
pieces whose colors inhabit the `'white' | 'black'` union, an en-passant
field that is either absent or an algebraic square, and numeric (non-NaN)
clock fields.  This matches standard FEN: placement ranks use maximal
run-length digits, castling letters appear in `KQkq` order, and every
field is canonical. -/

/-- The piece's color inhabits the declared string union. -/
def pieceOK (p : Piece) : Bool := p.color = strWhite || p.color = strBlack

/-- An empty cell, or a well-colored piece. -/
def cellOK : Option Piece → Bool
  | none => true
  | some p => pieceOK p

/-- A board row of exactly 8 well-formed cells. -/
def rowOK (row : List (Option Piece)) : Bool := row.length = 8 && row.all cellOK

/-- The en-passant target is absent or a file letter plus a digit rank. -/
def epSquareOK : Option Str → Bool
  | none => true
  | some sq =>
    match sq with
    | [f, r] => files.contains f && ('1' ≤ r && r ≤ '8')
    | _ => false

/-- Structural validity of a `GameState` as a chess position record. -/
def validState (s : GameState) : Bool :=
  s.board.length = 8 && s.board.all rowOK
    && epSquareOK s.enPassantTarget
    && s.halfmoveClock.isSome && s.fullmoveNumber.isSome

/-- A well-formed 6-field FEN: the canonical serialisation of some
structurally valid position. -/
def WellFormedFEN (x : Str) : Prop := ∃ s, validState s = true ∧ calculateFEN s = x

/-! ## FEN codec lemmas -/

/-- The letters `pieceToChar` can produce. -/
def pieceLetters : List Char := "KQRBNPkqrbnp".toList

theorem pieceToChar_mem (p : Piece) : pieceToChar p ∈ pieceLetters := by
  rw [pieceToChar]
  by_cases h : p.color = strWhite
  · rw [if_pos h]; cases p.type <;> decide
  · rw [if_neg h]; cases p.type <;> decide

theorem pieceLetters_props :
    ∀ c ∈ pieceLetters, (c ≠ ' ' ∧ c ≠ '/') ∧ ¬('1' ≤ c ∧ c ≤ '8') := by decide

/-- A piece with a well-typed color survives the char round trip. -/
theorem charToPiece_pieceToChar (p : Piece) (h : pieceOK p = true) :
    charToPiece (pieceToChar p) = some p := by
  obtain ⟨t, c⟩ := p
  simp only [pieceOK, Bool.or_eq_true, decide_eq_true_eq] at h
  rcases h with rfl | rfl <;> cases t <;> decide

theorem serRowGo_no_sep (sep : Char) (hd : isDigitC sep = false)
    (hp : sep ∉ pieceLetters) :
    ∀ (cells : List (Option Piece)) (cnt : Nat), sep ∉ serRowGo cells cnt := by
  intro cells
  induction cells with
  | nil =>
    intro cnt hmem
    rw [serRowGo] at hmem
    split at hmem
    · exact absurd (mem_natChars_digit hmem) (by rw [hd]; simp)
    · simp at hmem
  | cons cell rest ih =>
    intro cnt hmem
    cases cell with
    | none => exact ih (cnt + 1) hmem
    | some p =>
      rw [serRowGo] at hmem
      rcases List.mem_append.mp hmem with h1 | h1
      · split at h1
        · exact absurd (mem_natChars_digit h1) (by rw [hd]; simp)
        · simp at h1
      · rcases List.mem_cons.mp h1 with rfl | h2
        · exact hp (pieceToChar_mem p)
        · exact ih 0 h2

/-- Parsing skips exactly `cnt` columns over an emitted empty-run digit. -/
theorem parseRowGo_natChars_skip (cnt : Nat) (h1 : 1 ≤ cnt) (h8 : cnt ≤ 8)
    (rest : List Char) (col : Nat) (arr : List (Option Piece)) :
    parseRowGo (natChars cnt ++ rest) col arr = parseRowGo rest (col + cnt) arr := by
  interval_cases cnt <;> rfl

/-- Core row round trip: parsing the serialised form of the remaining
cells (with `cnt` pending empties) writes them back verbatim. -/
theorem parseRow_serRow :
    ∀ (cells : List (Option Piece)) (cnt : Nat) (pre : List (Option Piece)),
      pre.length + cnt + cells.length = 8 → cells.all cellOK = true →
      parseRowGo (serRowGo cells cnt) pre.length
          (pre ++ List.replicate (cnt + cells.length) none)
        = pre ++ List.replicate cnt none ++ cells := by
  intro cells
  induction cells with
  | nil =>
    intro cnt pre hsum _
    rw [serRowGo]
    by_cases hc : cnt > 0
    · rw [if_pos hc]
      rw [show natChars cnt = natChars cnt ++ [] by simp]
      rw [parseRowGo_natChars_skip cnt hc (by omega) [] pre.length _]
      simp [parseRowGo]
    · rw [if_neg hc]
      have : cnt = 0 := by omega
      subst this
      simp [parseRowGo]
  | cons cell rest ih =>
    intro cnt pre hsum hok
    have hokc : cellOK cell = true ∧ rest.all cellOK = true := by
      simpa [List.all_cons, Bool.and_eq_true] using hok
    cases cell with
    | none =>
      rw [serRowGo]
      have harr : cnt + (none :: rest).length = (cnt + 1) + rest.length := by
        simp; omega
      rw [harr]
      rw [ih (cnt + 1) pre (by simp at hsum ⊢; omega) hokc.2]
      rw [List.replicate_succ' cnt]
      simp
    | some p =>
      rw [serRowGo]
      have hstep :
          parseRowGo ((if cnt > 0 then natChars cnt else []) ++ pieceToChar p :: serRowGo rest 0)
              pre.length (pre ++ List.replicate (cnt + (some p :: rest).length) none)
            = parseRowGo (pieceToChar p :: serRowGo rest 0) (pre.length + cnt)
                (pre ++ List.replicate (cnt + (some p :: rest).length) none) := by
        by_cases hc : cnt > 0
        · rw [if_pos hc]
          exact parseRowGo_natChars_skip cnt hc (by simp at hsum; omega) _ _ _
        · have : cnt = 0 := by omega
          subst this
          simp
      rw [hstep, parseRowGo]
      rw [if_neg ((pieceLetters_props _ (pieceToChar_mem p)).2)]
      have hset :
          (pre ++ List.replicate (cnt + (some p :: rest).length) none).set
              (pre.length + cnt) (charToPiece (pieceToChar p))
            = (pre ++ List.replicate cnt none ++ [some p]) ++ List.replicate rest.length none := by
        rw [charToPiece_pieceToChar p hokc.1]
        rw [show cnt + (some p :: rest).length = cnt + 1 + rest.length by simp; omega]
        rw [set_append_len pre _ cnt (some p)]
        rw [replicate_set cnt rest.length none (some p)]
        simp
      rw [hset]
      rw [show pre.length + cnt + 1 = (pre ++ List.replicate cnt none ++ [some p]).length
            by simp; omega]
      have hih := ih 0 (pre ++ List.replicate cnt none ++ [some p])
            (by simp at hsum ⊢; omega) hokc.2
      simpa [List.append_assoc] using hih

/-- Reading the 8 columns of a length-8 row is the identity. -/
theorem readRow8_eq {row : List (Option Piece)} (h : row.length = 8) :
    readRow8 row = row :=
  getD_map_range row none 8 h

/-- Row-level round trip. -/
theorem parseRowTS_serRowTS {row : List (Option Piece)} (hlen : row.length = 8)
    (hok : row.all cellOK = true) : parseRowTS (serRowTS row) = row := by
  rw [serRowTS, readRow8_eq hlen, parseRowTS]
  have := parseRow_serRow row 0 [] (by simpa using hlen) hok
  simpa [hlen] using this

theorem mem_joinSlash :
    ∀ (rs : List Str) (c : Char), c ∈ joinSlash rs → c = '/' ∨ ∃ r ∈ rs, c ∈ r := by
  intro rs
  induction rs with
  | nil => intro c h; simp [joinSlash] at h
  | cons r rest ih =>
    intro c h
    cases rest with
    | nil =>
      rw [joinSlash] at h
      exact Or.inr ⟨r, List.mem_cons_self _ _, h⟩
    | cons r2 rest2 =>
      have hj : joinSlash (r :: r2 :: rest2) = r ++ '/' :: joinSlash (r2 :: rest2) := rfl
      rw [hj] at h
      rcases List.mem_append.mp h with h1 | h1
      · exact Or.inr ⟨r, List.mem_cons_self _ _, h1⟩
      · rcases List.mem_cons.mp h1 with rfl | h2
        · exact Or.inl rfl
        · rcases ih c h2 with h3 | ⟨r3, hr3, hc3⟩
          · exact Or.inl h3
          · exact Or.inr ⟨r3, List.mem_cons_of_mem _ hr3, hc3⟩

theorem space_not_mem_serRow (row : List (Option Piece)) : ' ' ∉ serRowTS row :=
  serRowGo_no_sep ' ' (by decide) (by decide) _ 0

theorem space_not_mem_boardFenField (b : Board) : ' ' ∉ boardFenField b := by
  intro h
  rcases mem_joinSlash _ _ h with h1 | ⟨r, hr, hc⟩
  · cases h1
  · rcases List.mem_map.mp hr with ⟨i, _, rfl⟩
    exact space_not_mem_serRow _ hc

theorem splitSlash_boardFenField (b : Board) :
    splitOnC '/' (boardFenField b)
      = (List.range 8).map (fun r => serRowTS (b.getD r [])) := by
  rw [boardFenField]
  apply splitOnC_joinSlash
  · intro h
    have := congrArg List.length h
    simp at this
  · intro r hr
    rcases List.mem_map.mp hr with ⟨i, _, rfl⟩
    exact serRowGo_no_sep '/' (by decide) (by decide) _ 0

theorem space_not_mem_colorField (cp : Str) :
    ' ' ∉ (if cp = strWhite then ['w'] else ['b']) := by
  split <;> decide

theorem space_not_mem_castlingField (cr : CastlingRights) :
    ' ' ∉ castlingField cr := by
  rcases cr with ⟨wk, wq, bk, bq⟩
  cases wk <;> cases wq <;> cases bk <;> cases bq <;> decide

theorem space_not_mem_numChars (o : Option Nat) : ' ' ∉ numChars o := by
  cases o with
  | none => decide
  | some n =>
    intro h
    have := mem_natChars_digit h
    simp [isDigitC] at this

theorem space_not_mem_epField {ep : Option Str} (h : epSquareOK ep = true) :
    ' ' ∉ epField ep := by
  cases ep with
  | none => decide
  | some sq =>
    match sq, h with
    | [f, r], h =>
      simp only [epSquareOK, Bool.and_eq_true, decide_eq_true_eq] at h
      obtain ⟨hf, h1, h8⟩ := h
      have hfne : f ≠ ' ' := by
        have : ∀ c ∈ files, c ≠ ' ' := by decide
        exact this f (by simpa using hf)
      have hrne : r ≠ ' ' := by
        intro hr
        rw [hr] at h1
        exact absurd h1 (by decide)
      intro hmem
      rw [show epField (some [f, r]) = [f, r] from rfl] at hmem
      rcases List.mem_cons.mp hmem with h' | h'
      · exact hfne h'.symm
      · rcases List.mem_singleton.mp h' with rfl
        exact hrne rfl

/-- The six fields of a serialised FEN (requires only that the en-passant
field is space-free, which `epSquareOK` guarantees). -/
theorem calculateFEN_split3 (s : GameState) :
    splitOnC ' ' (calculateFEN s)
      = boardFenField s.board
        :: (if s.currentPlayer = strWhite then ['w'] else ['b'])
        :: castlingField s.castlingRights
        :: splitOnC ' ' (epField s.enPassantTarget
             ++ ' ' :: (numChars s.halfmoveClock ++ ' ' :: numChars s.fullmoveNumber)) := by
  rw [calculateFEN, fenOfParts]
  simp only [List.cons_append, List.append_assoc]
  rw [splitOnC_append_cons _ (space_not_mem_boardFenField s.board)]
  rw [splitOnC_append_cons _ (space_not_mem_colorField s.currentPlayer)]
  rw [splitOnC_append_cons _ (space_not_mem_castlingField s.castlingRights)]

theorem calculateFEN_split6 (s : GameState) (hep : epSquareOK s.enPassantTarget = true) :
    splitOnC ' ' (calculateFEN s)
      = [boardFenField s.board,
         (if s.currentPlayer = strWhite then ['w'] else ['b']),
         castlingField s.castlingRights,
         epField s.enPassantTarget,
         numChars s.halfmoveClock,
         numChars s.fullmoveNumber] := by
  rw [calculateFEN_split3]
  rw [splitOnC_append_cons _ (space_not_mem_epField hep)]
  rw [splitOnC_append_cons _ (space_not_mem_numChars s.halfmoveClock)]
  rw [splitOnC_of_not_mem (space_not_mem_numChars s.fullmoveNumber)]

/-- Parsing the board field of a serialised FEN always succeeds (the
serialiser emits exactly 8 ranks); used by the undo round trip. -/
theorem fenToBoard_calculateFEN_isSome (s : GameState) :
    ∃ b, fenToBoard (calculateFEN s) = some b := by
  rw [fenToBoard]
  have h0 : (splitOnC ' ' (calculateFEN s)).getD 0 [] = boardFenField s.board := by
    rw [calculateFEN_split3]; rfl
  rw [h0, splitSlash_boardFenField]
  rw [if_neg (by simp)]
  exact ⟨_, rfl⟩

/-- Construction from any serialised FEN succeeds. -/
theorem initGame_calculateFEN_isSome (s : GameState) :
    ∃ st, initGame (calculateFEN s) = some st := by
  rw [initGame]
  have hlen : ¬((splitOnC ' ' (calculateFEN s)).length < 3) := by
    rw [calculateFEN_split3]; simp
  rw [if_neg hlen]
  obtain ⟨b, hb⟩ := fenToBoard_calculateFEN_isSome s
  rw [hb]
  exact ⟨_, rfl⟩

/-- Everything `initGame` puts into a successfully constructed state. -/
theorem initGame_some_spec {fen : Str} {st : GameState} (h : initGame fen = some st) :
    fenToBoard fen = some st.board ∧ st.currentPlayer = fenToCurrentPlayer fen
      ∧ st.castlingRights = fenToCastlingRights fen
      ∧ st.enPassantTarget = fenToEnPassantTarget fen
      ∧ st.halfmoveClock = fenToHalfmoveClock fen
      ∧ st.fullmoveNumber = fenToFullmoveNumber fen
      ∧ st.moves = [] ∧ st.isCheck = false ∧ st.isCheckmate = false
      ∧ st.isStalemate = false ∧ st.isDraw = false ∧ st.fen = fen := by
  rw [initGame] at h
  split at h
  · exact absurd h (by simp)
  · split at h
    · exact absurd h (by simp)
    · next b hb =>
      have hst := Option.some.inj h
      subst hst
      exact ⟨hb, rfl, rfl, rfl, rfl, rfl, rfl, rfl, rfl, rfl, rfl, rfl⟩

/-- Board round trip for a valid 8×8 board of well-colored pieces. -/
theorem fenToBoard_calculateFEN (s : GameState) (h8 : s.board.length = 8)
    (hall : s.board.all rowOK = true) :
    fenToBoard (calculateFEN s) = some s.board := by
  rw [fenToBoard]
  have h0 : (splitOnC ' ' (calculateFEN s)).getD 0 [] = boardFenField s.board := by
    rw [calculateFEN_split3]; rfl
  rw [h0, splitSlash_boardFenField, if_neg (by simp)]
  congr 1
  have hser : (List.range 8).map (fun r => serRowTS (s.board.getD r []))
      = s.board.map serRowTS := map_range_getD s.board [] serRowTS 8 h8
  rw [hser]
  have hlen2 : (s.board.map serRowTS).length = 8 := by simpa using h8
  have h2 : (List.range 8).map (fun r => parseRowTS ((s.board.map serRowTS).getD r []))
      = (s.board.map serRowTS).map parseRowTS :=
    map_range_getD (s.board.map serRowTS) [] parseRowTS 8 hlen2
  rw [h2, List.map_map]
  have : ∀ row ∈ s.board, (parseRowTS ∘ serRowTS) row = row := by
    intro row hrow
    have hr : rowOK row = true := by
      have := List.all_eq_true.mp hall row hrow
      simpa using this
    simp only [rowOK, Bool.and_eq_true, decide_eq_true_eq] at hr
    exact parseRowTS_serRowTS hr.1 hr.2
  calc s.board.map (parseRowTS ∘ serRowTS)
      = s.board.map id := List.map_congr_left this
    _ = s.board := List.map_id s.board

theorem castlingField_roundtrip (cr : CastlingRights) :
    CastlingRights.mk ((castlingField cr).contains 'K') ((castlingField cr).contains 'Q')
        ((castlingField cr).contains 'k') ((castlingField cr).contains 'q') = cr := by
  rcases cr with ⟨wk, wq, bk, bq⟩
  cases wk <;> cases wq <;> cases bk <;> cases bq <;> decide

theorem epField_roundtrip {ep : Option Str} (h : epSquareOK ep = true) :
    (if epField ep = ['-'] then none else some (epField ep)) = ep := by
  cases ep with
  | none => rfl
  | some sq =>
    match sq, h with
    | [f, r], h =>
      have hne : epField (some [f, r]) = [f, r] := rfl
      rw [hne, if_neg (by simp)]

/-- The player-field `if` only depends on whether the player is
`'white'`. -/
theorem fenOfParts_player_if (b : Board) (cp1 cp2 : Str) (cr : CastlingRights)
    (ep : Option Str) (h f : Option Nat)
    (hiff : (cp1 = strWhite) ↔ (cp2 = strWhite)) :
    fenOfParts b cp1 cr ep h f = fenOfParts b cp2 cr ep h f := by
  rw [fenOfParts, fenOfParts]
  by_cases h1 : cp1 = strWhite
  · rw [if_pos h1, if_pos (hiff.mp h1)]
  · rw [if_neg h1, if_neg (fun h2 => h1 (hiff.mpr h2))]

/-- Full round trip: constructing from a canonical FEN and serialising
again reproduces it. -/
theorem getFen_initGame_calculateFEN (s : GameState) (hv : validState s = true) :
    (initGame (calculateFEN s)).map getFen = some (calculateFEN s) := by
  simp only [validState, Bool.and_eq_true, decide_eq_true_eq] at hv
  obtain ⟨⟨⟨⟨h8, hall⟩, hep⟩, hhalf⟩, hfull⟩ := hv
  obtain ⟨st, hst⟩ := initGame_calculateFEN_isSome s
  obtain ⟨hb, hcp, hcr, hept, hhm, hfm, _, _, _, _, _, _⟩ := initGame_some_spec hst
  rw [hst]
  show some (getFen st) = some (calculateFEN s)
  apply congrArg
  have h6 := calculateFEN_split6 s hep
  -- board
  have hbeq : st.board = s.board := by
    have := fenToBoard_calculateFEN s h8 hall
    rw [this] at hb
    exact (Option.some.inj hb).symm
  -- castling rights
  have hcreq : st.castlingRights = s.castlingRights := by
    rw [hcr, fenToCastlingRights]
    have h2 : (splitOnC ' ' (calculateFEN s)).getD 2 [] = castlingField s.castlingRights := by
      rw [h6]; rfl
    rw [h2]
    exact castlingField_roundtrip s.castlingRights
  -- en passant
  have hepeq : st.enPassantTarget = s.enPassantTarget := by
    rw [hept, fenToEnPassantTarget]
    have h3 : (splitOnC ' ' (calculateFEN s)).get? 3 = some (epField s.enPassantTarget) := by
      rw [h6]; rfl
    rw [h3]
    exact epField_roundtrip hep
  -- clocks
  obtain ⟨hn, hhn⟩ := Option.isSome_iff_exists.mp hhalf
  obtain ⟨fn, hfn⟩ := Option.isSome_iff_exists.mp hfull
  have hhmeq : st.halfmoveClock = s.halfmoveClock := by
    rw [hhm, fenToHalfmoveClock]
    have h4 : (splitOnC ' ' (calculateFEN s)).getD 4 [] = numChars s.halfmoveClock := by
      rw [h6]; rfl
    rw [h4, hhn]
    show parseIntJS (natChars hn) = some hn
    exact parseIntJS_natChars hn
  have hfmeq : st.fullmoveNumber = s.fullmoveNumber := by
    rw [hfm, fenToFullmoveNumber]
    have h5 : (splitOnC ' ' (calculateFEN s)).getD 5 [] = numChars s.fullmoveNumber := by
      rw [h6]; rfl
    rw [h5, hfn]
    show parseIntJS (natChars fn) = some fn
    exact parseIntJS_natChars fn
  -- current player (only through the if)
  have hcpiff : (st.currentPlayer = strWhite) ↔ (s.currentPlayer = strWhite) := by
    rw [hcp, fenToCurrentPlayer]
    have h1 : (splitOnC ' ' (calculateFEN s)).getD 1 []
        = (if s.currentPlayer = strWhite then ['w'] else ['b']) := by
      rw [h6]; rfl
    rw [h1]
    by_cases hw : s.currentPlayer = strWhite
    · rw [if_pos hw, if_pos rfl]; exact ⟨fun _ => hw, fun _ => rfl⟩
    · rw [if_neg hw, if_neg (by decide)]
      constructor
      · intro hbw; exact absurd hbw (by decide)
      · intro hsw; exact absurd hsw hw
  rw [getFen, calculateFEN, calculateFEN, hbeq, hcreq, hepeq, hhmeq, hfmeq]
  exact fenOfParts_player_if _ _ _ _ _ _ _ hcpiff

/-! ## Move-execution bookkeeping lemmas -/

theorem updateCastlingRights_moves (s : GameState) (mv : Move) :
    (updateCastlingRights s mv).moves = s.moves := by
  rw [updateCastlingRights]; split_ifs <;> rfl

theorem updateEnPassantTarget_moves (s : GameState) (mv : Move) :
    (updateEnPassantTarget s mv).moves = s.moves := by
  rw [updateEnPassantTarget]; dsimp only; split_ifs <;> rfl

theorem updateClocks_moves (s : GameState) (mv : Move) :
    (updateClocks s mv).moves = s.moves := rfl

theorem executeMove_moves (s : GameState) (mv : Move) :
    (executeMove s mv).1.moves = s.moves := by
  rw [executeMove, executeCastling, executeEnPassant]
  dsimp only [squareToIndex, positionToIndex]
  split_ifs <;>
    first
      | rfl
      | rw [updateClocks_moves, updateEnPassantTarget_moves, updateCastlingRights_moves]

theorem executeMove_snd_fen (s : GameState) (mv : Move) :
    (executeMove s mv).2.fen = mv.fen := by
  rw [executeMove, executeCastling, executeEnPassant]
  dsimp only [squareToIndex, positionToIndex]
  split_ifs <;> rfl

theorem executeMove_snd_piece (s : GameState) (mv : Move) :
    (executeMove s mv).2.piece = mv.piece := by
  rw [executeMove, executeCastling, executeEnPassant]
  dsimp only [squareToIndex, positionToIndex]
  split_ifs <;> rfl

theorem updateGameStatus_moves (s : GameState) : (updateGameStatus s).moves = s.moves := rfl

/-- What `undoMove` does on a history ending in a move whose stored FEN
parses. -/
theorem undoMove_spec (s2 : GameState) (pre : List Move) (m : Move) (st : GameState)
    (hmoves : s2.moves = pre ++ [m]) (hinit : initGame m.fen = some st) :
    undoMove s2 = some (some m,
      { st with moves := pre, currentPlayer := m.piece.color }) := by
  rw [undoMove, hmoves]
  simp only [List.getLast?_concat, List.dropLast_concat, hinit]

/-- What a successful `makeMove` guarantees about the produced move and
state: the move is appended to the history and carries the pre-move
FEN. -/
theorem makeMove_some_spec (s : GameState) (f t : Str) (pr : Option PieceType)
    (m : Move) (s2 : GameState) (h : makeMove s f t pr = (some m, s2)) :
    s2.moves = s.moves ++ [m] ∧ m.fen = calculateFEN s := by
  rw [makeMove] at h
  split at h
  · simp at h
  · split at h
    · simp at h
    · next piece hpiece =>
      have hm := congrArg Prod.fst h
      have hs := congrArg Prod.snd h
      dsimp only at hm hs
      replace hm := Option.some.inj hm
      constructor
      · rw [← hs, updateGameStatus_moves]
        show (executeMove s _).1.moves ++ [_] = s.moves ++ [m]
        rw [executeMove_moves, hm]
      · rw [← hm]
        show (executeMove s _).2.fen = calculateFEN s
        rw [executeMove_snd_fen]

theorem replayMove_moves (s : GameState) (mv : Move) : (replayMove s mv).moves = s.moves := by
  cases hg : getPiece s mv.fromSq with
  | none => simp only [replayMove, hg]
  | some piece =>
    simp only [replayMove, hg]
    split_ifs <;> rfl

theorem resetToInitialPosition_moves (s : GameState) :
    (resetToInitialPosition s).moves = s.moves := by
  rw [resetToInitialPosition]; split <;> rfl

/-! ## Concrete states shared by witnesses and counterexamples -/

/-- A throwaway `Move` used as `Option.getD` default. -/
def emptyMove : Move :=
  { fromSq := [], toSq := [], piece := { type := PieceType.pawn, color := [] }
    capturedPiece := none, promotion := none, castling := none, enPassant := false
    san := [], fen := [], timestamp := 0 }

/-- The state after `1. e4` from the standard start. -/
def afterE2E4 : GameState := (makeMove startState "e2".toList "e4".toList none).2

/-- The `Move` record returned by `makeMove` for `1. e4`. -/
def afterE2E4move : Move :=
  (makeMove startState "e2".toList "e4".toList none).1.getD emptyMove

/-- Black to move, may castle both ways, with a live en-passant target
`b3` left by White's `b2b4`. -/
def epBugState : GameState :=
  (initGame "r3k2r/8/8/8/pP6/8/8/R3K2R b KQkq b3 0 1".toList).getD emptyState

/-- Black to move, may castle both ways, clocks `5` and `10`. -/
def clockBugState : GameState :=
  (initGame "r3k2r/8/8/8/8/8/8/R3K2R b kq - 5 10".toList).getD emptyState

/-- Black bishop on e4 can capture the white rook on h1 while White's
kingside castling right is set. -/
def rookCaptureState : GameState :=
  (initGame "4k3/8/8/8/4b3/8/8/4K2R b K - 0 1".toList).getD emptyState

/-! ## Claim theorems -/

/-- C1.  King-safety of `getLegalMoves`: for every game state and every
square, every returned move passes the king-safety filter — applying
the move to the position (placing the promoted piece on a promotion
and removing the captured pawn on an en-passant capture, exactly as the
filter's board simulation does) leaves the mover's own king unattacked. -/
theorem getLegalMoves_king_safe (s : GameState) (sq : Str) (mv : Cand) (p : Piece)
    (hp : getPiece s sq = some p) (hmem : mv ∈ getLegalMoves s sq) :
    isInCheckB (simBoard s sq mv.toSq mv.promotion p) p.color = false := by
  simp only [getLegalMoves, hp] at hmem
  split at hmem
  · exact absurd hmem (List.not_mem_nil mv)
  · have hf := List.of_mem_filter hmem
    have hw : wouldBeInCheck s sq mv.toSq mv.promotion = false := by
      simpa using hf
    simp only [wouldBeInCheck, hp] at hw
    exact hw

/-- Witness for C1: the pawn move `e2e3` from the standard start. -/
theorem getLegalMoves_king_safe_witness :
    isInCheckB
      (simBoard startState "e2".toList "e3".toList none
        { type := PieceType.pawn, color := strWhite }) strWhite = false :=
  getLegalMoves_king_safe startState "e2".toList
    { toSq := "e3".toList, promotion := none }
    { type := PieceType.pawn, color := strWhite } (by decide) (by decide)

/-- C2.  FEN round trip: constructing the engine from a well-formed FEN
(the canonical serialisation of a structurally valid position, see
`WellFormedFEN`) and serialising again yields the same string. -/
theorem fen_roundtrip (x : Str) (h : WellFormedFEN x) :
    (initGame x).map getFen = some x := by
  obtain ⟨s, hv, rfl⟩ := h
  exact getFen_initGame_calculateFEN s hv

/-- Witness for C2: the standard starting FEN. -/
theorem fen_roundtrip_witness :
    (initGame standardFEN).map getFen = some standardFEN :=
  fen_roundtrip standardFEN ⟨startState, by decide, by decide⟩

/-- C3.  An illegal move request — no piece on the source square, a
piece of the side not to move, or a destination/promotion matching no
legal candidate — makes `makeMove` return `null` and leave the state
unchanged (in the pure model, totality of `makeMove` is the absence of
a thrown exception; the square-validity hypotheses reflect that the UI
only submits algebraic squares, the one regime where the JS code cannot
throw on array indexing). -/
theorem makeMove_illegal_null_unchanged (s : GameState) (f t : Str) (pr : Option PieceType)
    (hf : isValidSquare f = true) (ht : isValidSquare t = true)
    (hill : getPiece s f = none
      ∨ (∃ p, getPiece s f = some p ∧ p.color ≠ s.currentPlayer)
      ∨ ∀ mv ∈ getLegalMoves s f, ¬(mv.toSq = t ∧ mv.promotion = pr)) :
    makeMove s f t pr = (none, s) := by
  have hv : isValidMove s f t pr = false := by
    rcases hill with h | ⟨p, hp, hc⟩ | h
    · simp only [isValidMove, h]
    · simp only [isValidMove, hp]
      rw [if_pos hc]
    · cases hgp : getPiece s f with
      | none => simp only [isValidMove, hgp]
      | some p =>
        simp only [isValidMove, hgp]
        split
        · rfl
        · rw [List.any_eq_false]
          intro mv hmv
          have := h mv hmv
          simpa using this
  simp [makeMove, hv]

/-- Witness for C3: `e5e6` from the standard start (no piece on e5). -/
theorem makeMove_illegal_null_unchanged_witness :
    makeMove startState "e5".toList "e6".toList none = (none, startState) :=
  makeMove_illegal_null_unchanged startState "e5".toList "e6".toList none
    (by decide) (by decide) (Or.inl (by decide))

/-- C4 (code bug).  A castling move executed while an en-passant target
is live leaves the target in place: `executeCastling` returns before
`updateEnPassantTarget` runs.  From the position after White's `b2b4`
(target `b3`), Black's legal `e8g8` castle keeps `enPassantTarget = b3`
although the claim requires every non-double-step move to clear it. -/
theorem castling_keeps_enPassantTarget :
    ((makeMove epBugState "e8".toList "g8".toList none).1.map (fun m => m.castling)
        = some (some CastleSide.kingside))
      ∧ (makeMove epBugState "e8".toList "g8".toList none).2.enPassantTarget
        = some "b3".toList :=
  ⟨by decide, by decide⟩

/-- C5.  Undo immediately after a successful `makeMove` restores a state
whose stored FEN is the move's pre-move FEN, whose move list is the
original (one entry shorter than the post-move list), and whose player
to move is the color of the undone move's piece. -/
theorem makeMove_undo_restores (s : GameState) (f t : Str) (pr : Option PieceType)
    (m : Move) (s2 : GameState) (h : makeMove s f t pr = (some m, s2)) :
    ∃ s3, undoMove s2 = some (some m, s3)
      ∧ s3.fen = m.fen ∧ s3.moves = s.moves
      ∧ s2.moves.length = s3.moves.length + 1
      ∧ s3.currentPlayer = m.piece.color := by
  obtain ⟨hmoves, hfen⟩ := makeMove_some_spec s f t pr m s2 h
  obtain ⟨st, hinit⟩ := initGame_calculateFEN_isSome s
  rw [← hfen] at hinit
  refine ⟨_, undoMove_spec s2 s.moves m st hmoves hinit, ?_, rfl, ?_, rfl⟩
  · show st.fen = m.fen
    exact (initGame_some_spec hinit).2.2.2.2.2.2.2.2.2.2.2
  · rw [hmoves]; simp

/-- Witness for C5: undoing `1. e4`. -/
theorem makeMove_undo_restores_witness :
    ∃ s3, undoMove afterE2E4 = some (some afterE2E4move, s3)
      ∧ s3.fen = afterE2E4move.fen ∧ s3.moves = startState.moves
      ∧ afterE2E4.moves.length = s3.moves.length + 1
      ∧ s3.currentPlayer = afterE2E4move.piece.color :=
  makeMove_undo_restores startState "e2".toList "e4".toList none
    afterE2E4move afterE2E4 (by decide)

/-- C6 (code bug).  Castling (and en-passant) moves never reach
`updateClocks`: after Black's legal `e8g8` castle from clocks `(5, 10)`
the halfmove clock is still `5` (the claim requires `6`) and the
fullmove number is still `10` (the claim requires `11` after a Black
move). -/
theorem castling_skips_clock_update :
    ((makeMove clockBugState "e8".toList "g8".toList none).1.map (fun m => m.castling)
        = some (some CastleSide.kingside))
      ∧ (makeMove clockBugState "e8".toList "g8".toList none).2.halfmoveClock = some 5
      ∧ (makeMove clockBugState "e8".toList "g8".toList none).2.fullmoveNumber = some 10 :=
  ⟨by decide, by decide, by decide⟩

/-- C7 (code bug).  Capturing a rook on its origin square does not clear
the corresponding castling right: after Black's bishop takes the white
rook on h1, `whiteKingside` is still `true`, although the claim says the
right turns false once the rook has been captured on its origin square. -/
theorem rook_capture_keeps_castling_right :
    ((makeMove rookCaptureState "e4".toList "h1".toList none).1.map (fun m => m.capturedPiece)
        = some (some { type := PieceType.rook, color := strWhite }))
      ∧ (makeMove rookCaptureState "e4".toList "h1".toList none).2.castlingRights.whiteKingside
        = true :=
  ⟨by decide, by decide⟩

/-- C8 counterexample.  The claim says construction fails with a parse
error when the placement is not exactly 8×8 or a clock field is
non-numeric; in fact a 9-rank placement, a 7-file rank and a non-numeric
halfmove clock all construct a state without any error (the clock
becomes `NaN`). -/
theorem initGame_malformed_counterexample :
    (initGame "8/8/8/8/8/8/8/8/8 w - - 0 1".toList).isSome = true
      ∧ (initGame "p6/8/8/8/8/8/8/8 w - - 0 1".toList).isSome = true
      ∧ (initGame "8/8/8/8/8/8/8/8 w - - x 1".toList).map (fun st => st.halfmoveClock)
        = some none :=
  ⟨by decide, by decide, by decide⟩

/-- C8 (amended).  Construction validates nothing: a placement with more
than 8 ranks is accepted with the extra ranks ignored, a rank describing
fewer than 8 files leaves the missing cells empty, and a non-numeric
clock field is stored as `NaN`; only a placement with fewer than 8 ranks
aborts construction, by a thrown `TypeError` rather than a distinct
parse error. -/
theorem initGame_no_validation :
    ((initGame "8/8/8/8/8/8/8/8/8 w - - 0 1".toList).map (fun st => st.board)
        = (initGame "8/8/8/8/8/8/8/8 w - - 0 1".toList).map (fun st => st.board))
      ∧ initGame "8/8 w - - 0 1".toList = none
      ∧ (initGame "p6/8/8/8/8/8/8/8 w - - 0 1".toList).map
          (fun st => getPiece st "a8".toList)
        = some (some { type := PieceType.pawn, color := strBlack })
      ∧ (initGame "8/8/8/8/8/8/8/8 w - - x 1".toList).map (fun st => st.halfmoveClock)
        = some none :=
  ⟨by decide, by decide, by decide, by decide⟩

/-- C9 counterexample.  `goToMoveIndex` is not a read-only projection:
after `1. e4`, `goToMoveIndex (-1)` (an in-range index) changes the
authoritative current position — the player to move flips back to White
and the stored FEN is replaced. -/
theorem goToMoveIndex_mutates_counterexample :
    (goToMoveIndex afterE2E4 (-1)).currentPlayer = strWhite
      ∧ afterE2E4.currentPlayer = strBlack
      ∧ (goToMoveIndex afterE2E4 (-1)).fen ≠ afterE2E4.fen :=
  ⟨by decide, by decide, by decide⟩

/-- C9 (amended).  `goToMoveIndex` with an in-range index preserves the
move list, but it rebuilds the current position in place (from the
standard start, replaying moves `0..n`), so the current position is
mutated, not projected. -/
theorem goToMoveIndex_preserves_moves (s : GameState) (n : Int)
    (h1 : -1 ≤ n) (h2 : n < (s.moves.length : Int)) :
    (goToMoveIndex s n).moves = s.moves := by
  rw [goToMoveIndex]
  rw [if_neg (by omega)]
  split
  · exact resetToInitialPosition_moves s
  · have hfold : ∀ (l : List Nat) (st : GameState),
        (l.foldl (fun st i =>
          match st.moves.get? i with
          | some mv => replayMove st mv
          | none => st) st).moves = st.moves := by
      intro l
      induction l with
      | nil => intro st; rfl
      | cons i rest ih =>
        intro st
        rw [List.foldl_cons, ih]
        cases hg : st.moves.get? i with
        | none => simp only [hg]
        | some mv => simp only [hg]; exact replayMove_moves st mv
    rw [hfold, resetToInitialPosition_moves]

/-- Witness for C9's amended claim: browsing to ply 0 after `1. e4`. -/
theorem goToMoveIndex_preserves_moves_witness :
    (goToMoveIndex afterE2E4 0).moves = afterE2E4.moves :=
  goToMoveIndex_preserves_moves afterE2E4 0 (by decide) (by decide)

/-- C10.  `undoMove` on an empty history returns `null` and changes
nothing, and every successful undo rebuilds the state from the stored
FEN via `initializeGame`, which hard-codes all four derived status flags
to `false` without re-running the status evaluator. -/
theorem undoMove_empty_null_and_flags (s : GameState) :
    (s.moves = [] → undoMove s = some (none, s)) ∧
    ∀ m s3, undoMove s = some (some m, s3) →
      s3.isCheck = false ∧ s3.isCheckmate = false
        ∧ s3.isStalemate = false ∧ s3.isDraw = false := by
  constructor
  · intro h
    rw [undoMove, h]
    rfl
  · intro m s3 h
    rw [undoMove] at h
    cases hl : s.moves.getLast? with
    | none => rw [hl] at h; simp at h
    | some lastMove =>
      rw [hl] at h
      dsimp only at h
      cases hi : initGame lastMove.fen with
      | none => rw [hi] at h; simp at h
      | some st =>
        rw [hi] at h
        dsimp only at h
        have h2 := Option.some.inj h
        have hs3 := congrArg Prod.snd h2
        dsimp only at hs3
        rw [← hs3]
        obtain ⟨_, _, _, _, _, _, _, hc, hcm, hsm, hd, _⟩ := initGame_some_spec hi
        exact ⟨hc, hcm, hsm, hd⟩

/-- Witness for C10: undo on the fresh start state (empty history). -/
theorem undoMove_empty_null_and_flags_witness :
    undoMove startState = some (none, startState) :=
  (undoMove_empty_null_and_flags startState).1 (by decide)

end Chess



